import Mathlib

/-!
Shallow embedding of the MetaVote Solidity contract (contracts/MetaVote.sol,
as shipped alongside src/test/MetaVote.ts).

Encrypted values (`euint32`) are modelled by their hidden 32-bit value
together with the publicly-decryptable flag that `FHE.makePubliclyDecryptable`
flips; the homomorphic primitives (`FHE.asEuint32`, `FHE.eq`, `FHE.add`,
`FHE.select`, `FHE.fromExternal`) operate on the hidden values with explicit
`% 2^32` wrap-around.  ACL bookkeeping (`FHE.allowThis`) has no observable
effect on any value and is not modelled.  The KMS decryption verifier
(`FHE.checkSignatures`) is an external capability and is modelled as an
arbitrary boolean predicate passed to `publishResults`; a `false` verdict
reverts, exactly as the Solidity library call would.

Every external function returns `Except VoteError`, mirroring Solidity's
revert semantics: an error leaves the pre-state untouched.  `msg.sender` and
`block.timestamp` are explicit `sender`/`now` arguments.
-/

namespace MetaVote

/-- 2^32, the modulus of the hidden `euint32` values. -/
def U32MOD : Nat := 4294967296

/-- Model of an `euint32` handle: its hidden value (mod 2^32) and whether the
handle has been marked publicly decryptable. -/
structure Euint32 where
  val : Nat
  pubDec : Bool
deriving DecidableEq, Repr

/-- `FHE.asEuint32(c)`: trivial encryption of a known constant. -/
def FHE.asEuint32 (c : Nat) : Euint32 := ⟨c % U32MOD, false⟩

/-- `FHE.eq`: encrypted equality test (the hidden boolean it produces). -/
def FHE.enceq (a b : Euint32) : Bool := a.val == b.val

/-- `FHE.add`: homomorphic 32-bit addition with wrap-around. -/
def FHE.encadd (a b : Euint32) : Euint32 := ⟨(a.val + b.val) % U32MOD, false⟩

/-- `FHE.select(cond, a, b)`: oblivious select on the hidden condition. -/
def FHE.encselect (c : Bool) (a b : Euint32) : Euint32 := if c then a else b

/-- `FHE.makePubliclyDecryptable`: same hidden value, decryptable flag set. -/
def FHE.makePubliclyDecryptable (a : Euint32) : Euint32 := ⟨a.val, true⟩

/-- `FHE.fromExternal(encryptedChoice, inputProof)`: imports an external
ciphertext; its hidden value is the imported 32-bit integer. -/
def FHE.fromExternal (raw : Nat) : Euint32 := ⟨raw % U32MOD, false⟩

/-- The `Poll` struct of the contract. -/
structure Poll where
  title : String
  options : List String
  tallies : List Euint32
  startTime : Nat
  endTime : Nat
  creator : Nat
  finalized : Bool
  resultsPublished : Bool
  publicResults : List Nat
  publicDecryptionProof : List Nat
deriving DecidableEq, Repr

/-- The contract's events. -/
inductive Event where
  | PollCreated (pollId : Nat) (title : String) (startTime endTime : Nat)
  | VoteSubmitted (pollId : Nat) (voter : Nat)
  | PollFinalized (pollId : Nat)
  | ResultsPublished (pollId : Nat) (results : List Nat)
deriving DecidableEq, Repr

/-- The contract's custom errors (plus the revert raised inside
`FHE.checkSignatures` when the proof does not verify). -/
inductive VoteError where
  | InvalidPoll
  | InvalidWindow
  | InvalidOptions
  | PollNotActive
  | PollAlreadyFinalized
  | PollNotFinished
  | AlreadyVoted
  | MismatchedResults
  | ResultsAlreadyPublished
  | ProofVerificationFailed
deriving DecidableEq, Repr

/-- Contract storage: the `polls` array, the `votes` double mapping (as the
set of (pollId, voter) pairs that are `true`), and the emitted event log. -/
structure ContractState where
  polls : List Poll
  votes : List (Nat × Nat)
  events : List Event
deriving DecidableEq, Repr

/-- Storage right after deployment. -/
def initState : ContractState := ⟨[], [], []⟩

/-- Type of the modelled `FHE.checkSignatures` verifier: it receives the
poll's tally handles, the claimed clear tallies and the proof bytes. -/
abbrev SigCheck := List Euint32 → List Nat → List Nat → Bool

/-- The fresh poll written by `createPoll` (title, window, creator, and one
zero-initialised encrypted counter per option). -/
def newPoll (sender : Nat) (title : String) (options : List String)
    (startTime endTime : Nat) : Poll :=
  { title := title
    options := options
    tallies := options.map (fun _ => FHE.asEuint32 0)
    startTime := startTime
    endTime := endTime
    creator := sender
    finalized := false
    resultsPublished := false
    publicResults := []
    publicDecryptionProof := [] }

/-- `createPoll(title, options, startTime, endTime)`. -/
def createPoll (s : ContractState) (sender now : Nat) (title : String)
    (options : List String) (startTime endTime : Nat) :
    Except VoteError (Nat × ContractState) :=
  if options.length < 2 ∨ 4 < options.length then
    .error .InvalidOptions
  else if endTime ≤ startTime ∨ endTime ≤ now then
    .error .InvalidWindow
  else
    .ok (s.polls.length,
      { s with
        polls := s.polls ++ [newPoll sender title options startTime endTime]
        events := s.events ++ [.PollCreated s.polls.length title startTime endTime] })

/-- One iteration of the tally-update loop in `castVote`: for option index
`i`, obliviously select between `tallies[i]+1` and `tallies[i]`. -/
def tallyUpdate (choice : Euint32) (ts : List Euint32) (i : Nat) : List Euint32 :=
  ts.set i
    (FHE.encselect (FHE.enceq choice (FHE.asEuint32 i))
      (FHE.encadd (ts.getD i ⟨0, false⟩) (FHE.asEuint32 1))
      (ts.getD i ⟨0, false⟩))

/-- The `for (i = 0; i < poll.options.length; i++)` loop of `castVote`. -/
def castVoteLoop (choice : Euint32) (optCount : Nat) (ts : List Euint32) :
    List Euint32 :=
  (List.range optCount).foldl (tallyUpdate choice) ts

/-- The poll after a successful `castVote` with imported choice `c`. -/
def votedPoll (poll : Poll) (c : Nat) : Poll :=
  { poll with
    tallies := castVoteLoop (FHE.fromExternal c) poll.options.length poll.tallies }

/-- `castVote(pollId, encryptedChoice, inputProof)`. -/
def castVote (s : ContractState) (sender now pollId encryptedChoice : Nat) :
    Except VoteError ContractState :=
  match s.polls[pollId]? with
  | none => .error .InvalidPoll
  | some poll =>
    if now < poll.startTime ∨ poll.endTime ≤ now then
      .error .PollNotActive
    else if poll.finalized then
      .error .PollAlreadyFinalized
    else if (pollId, sender) ∈ s.votes then
      .error .AlreadyVoted
    else
      .ok { s with
        polls := s.polls.set pollId (votedPoll poll encryptedChoice)
        votes := s.votes ++ [(pollId, sender)]
        events := s.events ++ [.VoteSubmitted pollId sender] }

/-- The poll after a successful `finalizePoll`. -/
def finalizedPoll (poll : Poll) : Poll :=
  { poll with
    finalized := true
    tallies := poll.tallies.map FHE.makePubliclyDecryptable }

/-- `finalizePoll(pollId)` (no dependence on the caller's identity). -/
def finalizePoll (s : ContractState) (now pollId : Nat) :
    Except VoteError ContractState :=
  match s.polls[pollId]? with
  | none => .error .InvalidPoll
  | some poll =>
    if now < poll.endTime then
      .error .PollNotFinished
    else if poll.finalized then
      .error .PollAlreadyFinalized
    else
      .ok { s with
        polls := s.polls.set pollId (finalizedPoll poll)
        events := s.events ++ [.PollFinalized pollId] }

/-- The poll after a successful `publishResults`. -/
def publishedPoll (poll : Poll) (clearTallies proofBytes : List Nat) : Poll :=
  { poll with
    publicResults := clearTallies
    resultsPublished := true
    publicDecryptionProof := proofBytes }

/-- `publishResults(pollId, clearTallies, decryptionProof)`; `check` models
the external `FHE.checkSignatures` verifier, whose failure reverts. -/
def publishResults (check : SigCheck) (s : ContractState)
    (pollId : Nat) (clearTallies proofBytes : List Nat) :
    Except VoteError ContractState :=
  match s.polls[pollId]? with
  | none => .error .InvalidPoll
  | some poll =>
    if poll.finalized = false then
      .error .PollNotFinished
    else if poll.resultsPublished then
      .error .ResultsAlreadyPublished
    else if clearTallies.length ≠ poll.options.length then
      .error .MismatchedResults
    else if check poll.tallies clearTallies proofBytes = false then
      .error .ProofVerificationFailed
    else
      .ok { s with
        polls := s.polls.set pollId (publishedPoll poll clearTallies proofBytes)
        events := s.events ++ [.ResultsPublished pollId clearTallies] }

/-- `getPollCount()`. -/
def getPollCount (s : ContractState) : Nat := s.polls.length

/-- `getPublishedResults(pollId)`. -/
def getPublishedResults (s : ContractState) (pollId : Nat) :
    Except VoteError (List Nat × List Nat) :=
  match s.polls[pollId]? with
  | none => .error .InvalidPoll
  | some poll => .ok (poll.publicResults, poll.publicDecryptionProof)

/-- `hasUserVoted(pollId, user)`. -/
def hasUserVoted (s : ContractState) (pollId user : Nat) :
    Except VoteError Bool :=
  match s.polls[pollId]? with
  | none => .error .InvalidPoll
  | some _ => .ok ((pollId, user) ∈ s.votes)

/-- One state-changing external call, with its arguments. -/
inductive Op where
  | create (sender : Nat) (title : String) (options : List String)
      (startTime endTime : Nat)
  | vote (sender pollId choice : Nat)
  | finalize (pollId : Nat)
  | publish (pollId : Nat) (clearTallies proofBytes : List Nat)

/-- Applies one call at timestamp `now`; a revert leaves storage unchanged. -/
def applyOp (check : SigCheck) (now : Nat) (op : Op) (s : ContractState) :
    ContractState :=
  match op with
  | .create sender title options st en =>
    match createPoll s sender now title options st en with
    | .ok (_, s') => s'
    | .error _ => s
  | .vote sender pollId choice =>
    match castVote s sender now pollId choice with
    | .ok s' => s'
    | .error _ => s
  | .finalize pollId =>
    match finalizePoll s now pollId with
    | .ok s' => s'
    | .error _ => s
  | .publish pollId ct pf =>
    match publishResults check s pollId ct pf with
    | .ok s' => s'
    | .error _ => s

/-- States reachable from deployment by any sequence of calls whose
timestamps never decrease; `Reachable check t s` records that the last call
(if any) was applied at a timestamp ≤ `t`. -/
inductive Reachable (check : SigCheck) : Nat → ContractState → Prop where
  | init (t : Nat) : Reachable check t initState
  | step {t : Nat} {s : ContractState} (t' : Nat) (op : Op) :
      Reachable check t s → t ≤ t' → Reachable check t' (applyOp check t' op s)

/-- An honest decryption verifier: accepts exactly the true hidden values of
the submitted handles (used to run concrete end-to-end scenarios). -/
def trueDecrypt : SigCheck :=
  fun handles clear _ => clear == handles.map Euint32.val

/-! The §8 scenario: deployer 0 creates a 3-option poll with window
[2, 302), voter 1 votes option 1 and voter 2 votes option 2 during the
window, anyone finalizes at 303 and publishes the true counts. -/

/-- Scenario state after `createPoll` at timestamp 0. -/
def scenS1 : ContractState :=
  applyOp trueDecrypt 0
    (.create 0 "Favorite language" ["Solidity", "TypeScript", "Rust"] 2 302)
    initState

/-- Scenario state after voter 1 votes option 1 at timestamp 3. -/
def scenS2 : ContractState := applyOp trueDecrypt 3 (.vote 1 0 1) scenS1

/-- Scenario state after voter 2 votes option 2 at timestamp 3. -/
def scenS3 : ContractState := applyOp trueDecrypt 3 (.vote 2 0 2) scenS2

/-- Scenario state after `finalizePoll` at timestamp 303. -/
def scenS4 : ContractState := applyOp trueDecrypt 303 (.finalize 0) scenS3

/-- Scenario state after publishing the true counts `[0, 1, 1]`. -/
def scenS5 : ContractState :=
  applyOp trueDecrypt 303 (.publish 0 [0, 1, 1] [7]) scenS4

/-- Placeholder poll used as `getD` default when reading scenario storage. -/
def defPoll : Poll := newPoll 0 "" [] 0 0

/-- The scenario poll right after creation. -/
def scenPoll1 : Poll := scenS1.polls.getD 0 defPoll

/-- The scenario poll after both votes. -/
def scenPoll3 : Poll := scenS3.polls.getD 0 defPoll

/-- The scenario poll as it stands after finalization. -/
def scenPoll4 : Poll := scenS4.polls.getD 0 defPoll

/-- The scenario poll after its results are published. -/
def scenPoll5 : Poll := scenS5.polls.getD 0 defPoll

/-! ### Characterisation of the tally-update loop -/

theorem tallyUpdate_length (c : Euint32) (ts : List Euint32) (i : Nat) :
    (tallyUpdate c ts i).length = ts.length := by
  simp [tallyUpdate]

theorem castVoteLoop_succ (c : Euint32) (m : Nat) (ts : List Euint32) :
    castVoteLoop c (m + 1) ts = tallyUpdate c (castVoteLoop c m ts) m := by
  simp [castVoteLoop, List.range_succ]

theorem castVoteLoop_length (c : Euint32) (m : Nat) (ts : List Euint32) :
    (castVoteLoop c m ts).length = ts.length := by
  induction m with
  | zero => rfl
  | succ n ih => rw [castVoteLoop_succ, tallyUpdate_length, ih]

/-- Indices not yet visited by the loop are untouched. -/
theorem castVoteLoop_getElem?_of_le (c : Euint32) {m j : Nat} (h : m ≤ j)
    (ts : List Euint32) : (castVoteLoop c m ts)[j]? = ts[j]? := by
  induction m with
  | zero => rfl
  | succ n ih =>
    rw [castVoteLoop_succ]
    unfold tallyUpdate
    rw [List.getElem?_set_ne (by omega : n ≠ j)]
    exact ih (by omega)

/-- A visited in-bounds index holds the oblivious-select rewrite of its old
value. -/
theorem castVoteLoop_getElem?_of_lt (c : Euint32) {m j : Nat} (hj : j < m)
    {ts : List Euint32} (hlen : j < ts.length) :
    (castVoteLoop c m ts)[j]? =
      some (FHE.encselect (FHE.enceq c (FHE.asEuint32 j))
        (FHE.encadd (ts.getD j ⟨0, false⟩) (FHE.asEuint32 1))
        (ts.getD j ⟨0, false⟩)) := by
  induction m with
  | zero => omega
  | succ n ih =>
    rw [castVoteLoop_succ]
    by_cases hjn : j = n
    · subst hjn
      have h1 : (castVoteLoop c j ts)[j]? = ts[j]? :=
        castVoteLoop_getElem?_of_le c (le_refl j) ts
      have hlen' : j < (castVoteLoop c j ts).length := by
        rw [castVoteLoop_length]; exact hlen
      unfold tallyUpdate
      rw [List.getElem?_set_self hlen']
      simp [List.getD_eq_getElem?_getD, h1]
    · unfold tallyUpdate
      rw [List.getElem?_set_ne (by omega : n ≠ j)]
      exact ih (by omega)

/-- When the hidden choice matches no visited index, the loop rewrites every
counter to its old value: the tally list is left exactly as it was. -/
theorem castVoteLoop_of_no_match (c : Euint32) (m : Nat) (ts : List Euint32)
    (h : ∀ i, i < m → FHE.enceq c (FHE.asEuint32 i) = false) :
    castVoteLoop c m ts = ts := by
  apply List.ext_getElem?
  intro j
  by_cases hj : j < m
  · by_cases hl : j < ts.length
    · rw [castVoteLoop_getElem?_of_lt c hj hl, h j hj,
        List.getElem?_eq_getElem hl]
      simp [FHE.encselect, List.getD_eq_getElem?_getD,
        List.getElem?_eq_getElem hl]
    · rw [List.getElem?_eq_none (l := ts) (by omega),
        List.getElem?_eq_none (by rw [castVoteLoop_length]; omega)]
  · exact castVoteLoop_getElem?_of_le c (by omega) ts

/-! ### Inversion of the state-changing operations -/

theorem createPoll_eq_ok {s : ContractState} {sender now : Nat} {title : String}
    {options : List String} {st en v : Nat} {s' : ContractState} :
    createPoll s sender now title options st en = .ok (v, s') ↔
      2 ≤ options.length ∧ options.length ≤ 4 ∧ st < en ∧ now < en ∧
      v = s.polls.length ∧
      s' = { s with
        polls := s.polls ++ [newPoll sender title options st en]
        events := s.events ++ [.PollCreated s.polls.length title st en] } := by
  unfold createPoll
  split_ifs with h1 h2
  · constructor
    · intro h; cases h
    · intro h; omega
  · constructor
    · intro h; cases h
    · intro h; omega
  · simp only [Except.ok.injEq, Prod.mk.injEq]
    constructor
    · rintro ⟨hv, hs⟩
      exact ⟨by omega, by omega, by omega, by omega, hv.symm, hs.symm⟩
    · rintro ⟨-, -, -, -, hv, hs⟩
      exact ⟨hv.symm, hs.symm⟩

theorem castVote_eq_ok {s : ContractState} {sender now pollId c : Nat}
    {s' : ContractState} :
    castVote s sender now pollId c = .ok s' ↔
      ∃ poll, s.polls[pollId]? = some poll ∧
        poll.startTime ≤ now ∧ now < poll.endTime ∧
        poll.finalized = false ∧ (pollId, sender) ∉ s.votes ∧
        s' = { s with
          polls := s.polls.set pollId (votedPoll poll c)
          votes := s.votes ++ [(pollId, sender)]
          events := s.events ++ [.VoteSubmitted pollId sender] } := by
  unfold castVote
  cases hp : s.polls[pollId]? with
  | none => simp
  | some poll =>
    simp only [Option.some.injEq]
    split_ifs with h1 h2 h3
    · constructor
      · intro h; cases h
      · rintro ⟨p, rfl, hs, he, -, -, -⟩; omega
    · constructor
      · intro h; cases h
      · rintro ⟨p, rfl, -, -, hf, -, -⟩; rw [h2] at hf; cases hf
    · constructor
      · intro h; cases h
      · rintro ⟨p, rfl, -, -, -, hv, -⟩; exact hv h3
    · simp only [Except.ok.injEq]
      constructor
      · intro h
        exact ⟨poll, rfl, by omega, by omega,
          Bool.not_eq_true _ ▸ (by simpa using h2), h3, h.symm⟩
      · rintro ⟨p, rfl, -, -, -, -, hs⟩; exact hs.symm

theorem finalizePoll_eq_ok {s : ContractState} {now pollId : Nat}
    {s' : ContractState} :
    finalizePoll s now pollId = .ok s' ↔
      ∃ poll, s.polls[pollId]? = some poll ∧
        poll.endTime ≤ now ∧ poll.finalized = false ∧
        s' = { s with
          polls := s.polls.set pollId (finalizedPoll poll)
          events := s.events ++ [.PollFinalized pollId] } := by
  unfold finalizePoll
  cases hp : s.polls[pollId]? with
  | none => simp
  | some poll =>
    simp only [Option.some.injEq]
    split_ifs with h1 h2
    · constructor
      · intro h; cases h
      · rintro ⟨p, rfl, he, -, -⟩; omega
    · constructor
      · intro h; cases h
      · rintro ⟨p, rfl, -, hf, -⟩; rw [h2] at hf; cases hf
    · simp only [Except.ok.injEq]
      constructor
      · intro h
        exact ⟨poll, rfl, by omega, by simpa using h2, h.symm⟩
      · rintro ⟨p, rfl, -, -, hs⟩; exact hs.symm

theorem publishResults_eq_ok {check : SigCheck} {s : ContractState}
    {pollId : Nat} {ct pf : List Nat} {s' : ContractState} :
    publishResults check s pollId ct pf = .ok s' ↔
      ∃ poll, s.polls[pollId]? = some poll ∧
        poll.finalized = true ∧ poll.resultsPublished = false ∧
        ct.length = poll.options.length ∧
        check poll.tallies ct pf = true ∧
        s' = { s with
          polls := s.polls.set pollId (publishedPoll poll ct pf)
          events := s.events ++ [.ResultsPublished pollId ct] } := by
  unfold publishResults
  cases hp : s.polls[pollId]? with
  | none => simp
  | some poll =>
    simp only [Option.some.injEq]
    split_ifs with h1 h2 h3 h4
    · constructor
      · intro h; cases h
      · rintro ⟨p, rfl, hf, -, -, -, -⟩; rw [h1] at hf; cases hf
    · constructor
      · intro h; cases h
      · rintro ⟨p, rfl, -, hr, -, -, -⟩; rw [h2] at hr; cases hr
    · constructor
      · intro h; cases h
      · rintro ⟨p, rfl, -, -, hl, -, -⟩; exact h3 hl
    · constructor
      · intro h; cases h
      · rintro ⟨p, rfl, -, -, -, hc, -⟩; rw [h4] at hc; cases hc
    · simp only [Except.ok.injEq]
      constructor
      · intro h
        refine ⟨poll, rfl, ?_, ?_, ?_, ?_, h.symm⟩
        · simpa using h1
        · simpa using h2
        · omega
        · simpa using h4
      · rintro ⟨p, rfl, -, -, -, -, hs⟩; exact hs.symm

/-! ### How one applied call can change one stored poll -/

theorem getElem?_lt_of_eq_some {l : List Poll} {i : Nat} {p : Poll}
    (h : l[i]? = some p) : i < l.length := by
  by_contra hc
  rw [List.getElem?_eq_none (by omega)] at h
  cases h

/-- A poll already in storage survives any single call either unchanged, or
rewritten by exactly one of the three mutating transitions, each of which can
only fire when its preconditions held. -/
theorem applyOp_poll_cases (check : SigCheck) (now : Nat) (op : Op)
    (s : ContractState) {i : Nat} {poll : Poll}
    (h : s.polls[i]? = some poll) :
    ∃ poll', (applyOp check now op s).polls[i]? = some poll' ∧
      (poll' = poll ∨
       (∃ c, poll' = votedPoll poll c ∧ poll.finalized = false ∧
          poll.startTime ≤ now ∧ now < poll.endTime) ∨
       (poll' = finalizedPoll poll ∧ poll.finalized = false ∧
          poll.endTime ≤ now) ∨
       (∃ ct pf, poll' = publishedPoll poll ct pf ∧ poll.finalized = true ∧
          poll.resultsPublished = false ∧ ct.length = poll.options.length)) := by
  have hi : i < s.polls.length := getElem?_lt_of_eq_some h
  cases op with
  | create sender title options st en =>
    cases hc : createPoll s sender now title options st en with
    | error e => exact ⟨poll, by simp [applyOp, hc, h], Or.inl rfl⟩
    | ok p =>
      obtain ⟨v, s'⟩ := p
      obtain ⟨-, -, -, -, -, hs⟩ := createPoll_eq_ok.mp hc
      refine ⟨poll, ?_, Or.inl rfl⟩
      simp only [applyOp, hc, hs]
      rw [List.getElem?_append_left hi]
      exact h
  | vote sender pollId c =>
    cases hc : castVote s sender now pollId c with
    | error e => exact ⟨poll, by simp [applyOp, hc, h], Or.inl rfl⟩
    | ok s' =>
      obtain ⟨p, hp, hst, hen, hf, -, hs⟩ := castVote_eq_ok.mp hc
      by_cases hpi : pollId = i
      · subst hpi
        rw [hp] at h
        cases h
        refine ⟨votedPoll poll c, ?_, Or.inr (Or.inl ⟨c, rfl, hf, hst, hen⟩)⟩
        simp only [applyOp, hc, hs]
        exact List.getElem?_set_self hi
      · refine ⟨poll, ?_, Or.inl rfl⟩
        simp only [applyOp, hc, hs]
        rw [List.getElem?_set_ne hpi]
        exact h
  | finalize pollId =>
    cases hc : finalizePoll s now pollId with
    | error e => exact ⟨poll, by simp [applyOp, hc, h], Or.inl rfl⟩
    | ok s' =>
      obtain ⟨p, hp, hen, hf, hs⟩ := finalizePoll_eq_ok.mp hc
      by_cases hpi : pollId = i
      · subst hpi
        rw [hp] at h
        cases h
        refine ⟨finalizedPoll poll, ?_, Or.inr (Or.inr (Or.inl ⟨rfl, hf, hen⟩))⟩
        simp only [applyOp, hc, hs]
        exact List.getElem?_set_self hi
      · refine ⟨poll, ?_, Or.inl rfl⟩
        simp only [applyOp, hc, hs]
        rw [List.getElem?_set_ne hpi]
        exact h
  | publish pollId ct pf =>
    cases hc : publishResults check s pollId ct pf with
    | error e => exact ⟨poll, by simp [applyOp, hc, h], Or.inl rfl⟩
    | ok s' =>
      obtain ⟨p, hp, hf, hr, hl, -, hs⟩ := publishResults_eq_ok.mp hc
      by_cases hpi : pollId = i
      · subst hpi
        rw [hp] at h
        cases h
        refine ⟨publishedPoll poll ct pf, ?_,
          Or.inr (Or.inr (Or.inr ⟨ct, pf, rfl, hf, hr, hl⟩))⟩
        simp only [applyOp, hc, hs]
        exact List.getElem?_set_self hi
      · refine ⟨poll, ?_, Or.inl rfl⟩
        simp only [applyOp, hc, hs]
        rw [List.getElem?_set_ne hpi]
        exact h

/-- A storage slot that was empty stays empty unless this very call is the
`createPoll` that fills it with a fresh poll. -/
theorem applyOp_poll_new (check : SigCheck) (now : Nat) (op : Op)
    (s : ContractState) {i : Nat} (h : s.polls[i]? = none) :
    (applyOp check now op s).polls[i]? = none ∨
      ∃ sender title options st en,
        (applyOp check now op s).polls[i]? =
          some (newPoll sender title options st en) ∧
        2 ≤ options.length ∧ options.length ≤ 4 ∧ st < en ∧ now < en := by
  have hi : s.polls.length ≤ i := by
    by_contra hc
    rw [List.getElem?_eq_getElem (by omega)] at h
    cases h
  cases op with
  | create sender title options st en =>
    cases hc : createPoll s sender now title options st en with
    | error e => exact Or.inl (by simp [applyOp, hc, h])
    | ok p =>
      obtain ⟨v, s'⟩ := p
      obtain ⟨h2, h4, hw, hn, -, hs⟩ := createPoll_eq_ok.mp hc
      by_cases hii : i = s.polls.length
      · refine Or.inr ⟨sender, title, options, st, en, ?_, h2, h4, hw, hn⟩
        simp only [applyOp, hc, hs]
        rw [List.getElem?_append_right (by omega)]
        simp [hii]
      · refine Or.inl ?_
        simp only [applyOp, hc, hs]
        rw [List.getElem?_eq_none]
        simp only [List.length_append, List.length_cons, List.length_nil]
        omega
  | vote sender pollId c =>
    cases hc : castVote s sender now pollId c with
    | error e => exact Or.inl (by simp [applyOp, hc, h])
    | ok s' =>
      obtain ⟨p, hp, -, -, -, -, hs⟩ := castVote_eq_ok.mp hc
      refine Or.inl ?_
      simp only [applyOp, hc, hs]
      rw [List.getElem?_eq_none (by simpa using hi)]
  | finalize pollId =>
    cases hc : finalizePoll s now pollId with
    | error e => exact Or.inl (by simp [applyOp, hc, h])
    | ok s' =>
      obtain ⟨p, hp, -, -, hs⟩ := finalizePoll_eq_ok.mp hc
      refine Or.inl ?_
      simp only [applyOp, hc, hs]
      rw [List.getElem?_eq_none (by simpa using hi)]
  | publish pollId ct pf =>
    cases hc : publishResults check s pollId ct pf with
    | error e => exact Or.inl (by simp [applyOp, hc, h])
    | ok s' =>
      obtain ⟨p, hp, -, -, -, -, hs⟩ := publishResults_eq_ok.mp hc
      refine Or.inl ?_
      simp only [applyOp, hc, hs]
      rw [List.getElem?_eq_none (by simpa using hi)]

/-! ### Invariants of reachable storage -/

/-- Invariant satisfied, at any observation time `t` at or after the last
applied call, by every poll held in reachable storage. -/
def PollInv (t : Nat) (poll : Poll) : Prop :=
  (poll.resultsPublished = true → poll.finalized = true) ∧
  (poll.resultsPublished = false →
    poll.publicResults = [] ∧ poll.publicDecryptionProof = []) ∧
  (poll.finalized = true → poll.endTime ≤ t) ∧
  poll.tallies.length = poll.options.length ∧
  2 ≤ poll.options.length ∧ poll.options.length ≤ 4 ∧
  poll.startTime < poll.endTime

theorem pollInv_mono {t t' : Nat} {poll : Poll} (h : PollInv t poll)
    (htt : t ≤ t') : PollInv t' poll := by
  obtain ⟨h1, h2, h3, h4⟩ := h
  exact ⟨h1, h2, fun hf => le_trans (h3 hf) htt, h4⟩

theorem reachable_pollInv {check : SigCheck} {t : Nat} {s : ContractState}
    (hr : Reachable check t s) :
    ∀ (i : Nat) (poll : Poll), s.polls[i]? = some poll → PollInv t poll := by
  induction hr with
  | init t =>
    intro i poll h
    simp [initState] at h
  | step t' op hr htt ih =>
    rename_i t s
    intro i poll' h'
    cases hpre : s.polls[i]? with
    | some poll =>
      obtain ⟨poll'', hpost, hcases⟩ :=
        applyOp_poll_cases check t' op s hpre
      rw [hpost] at h'
      cases h'
      have hinv : PollInv t' poll := pollInv_mono (ih i poll hpre) htt
      obtain ⟨i1, i2, i3, i4, i5, i6, i7⟩ := hinv
      rcases hcases with rfl | ⟨c, rfl, hf, -, -⟩ | ⟨rfl, hf, hen⟩ |
        ⟨ct, pf, rfl, hf, hrp, hl⟩
      · exact ⟨i1, i2, i3, i4, i5, i6, i7⟩
      · exact ⟨i1, i2, i3, by simpa [votedPoll, castVoteLoop_length] using i4,
          i5, i6, i7⟩
      · refine ⟨fun _ => rfl, i2, fun _ => hen, ?_, i5, i6, i7⟩
        simpa [finalizedPoll] using i4
      · exact ⟨fun _ => hf, by simp [publishedPoll], fun _ => i3 hf,
          i4, i5, i6, i7⟩
    | none =>
      rcases applyOp_poll_new check t' op s hpre with hnone |
        ⟨sender, title, options, st, en, hpost, h2, h4, hw, hn⟩
      · rw [hnone] at h'
        cases h'
      · rw [hpost] at h'
        cases h'
        refine ⟨by simp [newPoll], by simp [newPoll], by simp [newPoll],
          by simp [newPoll], h2, h4, hw⟩

/-- Existing polls survive every call with both lifecycle flags monotone:
`finalized` and `resultsPublished` never transition back to `false`. -/
theorem applyOp_flags_mono (check : SigCheck) (now : Nat) (op : Op)
    (s : ContractState) {i : Nat} {poll : Poll}
    (h : s.polls[i]? = some poll) :
    ∃ poll', (applyOp check now op s).polls[i]? = some poll' ∧
      (poll.finalized = true → poll'.finalized = true) ∧
      (poll.resultsPublished = true → poll'.resultsPublished = true) := by
  obtain ⟨poll', hpost, hcases⟩ := applyOp_poll_cases check now op s h
  refine ⟨poll', hpost, ?_, ?_⟩
  all_goals
    rcases hcases with rfl | ⟨c, rfl, hf, -, -⟩ | ⟨rfl, hf, hen⟩ |
      ⟨ct, pf, rfl, hf, hrp, hl⟩ <;>
    simp_all [votedPoll, finalizedPoll, publishedPoll]

/-- Reaching the finalized scenario state with non-decreasing timestamps. -/
theorem reachable_scenS4 : Reachable trueDecrypt 303 scenS4 :=
  .step 303 (.finalize 0)
    (.step 3 (.vote 2 0 2)
      (.step 3 (.vote 1 0 1)
        (.step 0
          (.create 0 "Favorite language" ["Solidity", "TypeScript", "Rust"] 2 302)
          (.init 0) (le_refl 0))
        (by omega))
      (le_refl 3))
    (by omega)

/-- Reaching the published scenario state with non-decreasing timestamps. -/
theorem reachable_scenS5 : Reachable trueDecrypt 303 scenS5 :=
  .step 303 (.publish 0 [0, 1, 1] [7]) reachable_scenS4 (le_refl 303)

/-! ### The claims -/

/-- C4: castVote fails atomically with `InvalidPoll` when `pollId` is past
the poll count; otherwise with `PollNotActive` when the time lies outside
`[startTime, endTime)`; otherwise with `PollAlreadyFinalized` on a finalized
poll; otherwise with `AlreadyVoted` when the caller already holds a receipt —
and a repeat vote from the same identity in the same poll within the active
window always fails with `AlreadyVoted`. -/
theorem C4_castVote_error_order :
    ∀ (s : ContractState) (sender now pollId c : Nat),
      (s.polls.length ≤ pollId →
        castVote s sender now pollId c = .error .InvalidPoll) ∧
      (∀ poll : Poll, s.polls[pollId]? = some poll →
        ((now < poll.startTime ∨ poll.endTime ≤ now) →
          castVote s sender now pollId c = .error .PollNotActive) ∧
        (poll.startTime ≤ now → now < poll.endTime → poll.finalized = true →
          castVote s sender now pollId c = .error .PollAlreadyFinalized) ∧
        (poll.startTime ≤ now → now < poll.endTime → poll.finalized = false →
          (pollId, sender) ∈ s.votes →
          castVote s sender now pollId c = .error .AlreadyVoted)) ∧
      (∀ (s' : ContractState) (now' c' : Nat),
        castVote s sender now pollId c = .ok s' →
        ∀ poll' : Poll, s'.polls[pollId]? = some poll' →
          poll'.startTime ≤ now' → now' < poll'.endTime →
          castVote s' sender now' pollId c' = .error .AlreadyVoted) := by
  intro s sender now pollId c
  refine ⟨?_, ?_, ?_⟩
  · intro h
    unfold castVote
    rw [List.getElem?_eq_none h]
  · intro poll hp
    refine ⟨?_, ?_, ?_⟩
    · intro h
      simp only [castVote, hp]
      rw [if_pos h]
    · intro h1 h2 hf
      simp only [castVote, hp]
      rw [if_neg (by omega), if_pos hf]
    · intro h1 h2 hf hv
      simp only [castVote, hp]
      rw [if_neg (by omega), if_neg (by simp [hf]), if_pos hv]
  · intro s' now' c' hok poll' hp' h1 h2
    obtain ⟨poll, hp, -, -, hf, -, hs⟩ := castVote_eq_ok.mp hok
    have hi : pollId < s.polls.length := getElem?_lt_of_eq_some hp
    have hset : s'.polls[pollId]? = some (votedPoll poll c) := by
      rw [hs]
      exact List.getElem?_set_self hi
    rw [hset] at hp'
    cases hp'
    simp only [castVote, hset]
    rw [if_neg (by
      simp only [votedPoll] at h1 h2 ⊢
      omega)]
    rw [if_neg (by simp [votedPoll, hf])]
    rw [if_pos (by rw [hs]; exact List.mem_append_right _ (by simp))]

/-- C4 witness: a castVote on a non-existent poll id fails with
`InvalidPoll`. -/
theorem C4_witness : castVote initState 0 0 5 0 = .error .InvalidPoll :=
  (C4_castVote_error_order initState 0 0 5 0).1 (by decide)

/-- C5: createPoll with 2–4 options, `startTime < endTime` and a future
`endTime` appends a poll with one zero-initialised encrypted counter per
option and returns the pre-append poll count; option counts outside [2,4]
fail with `InvalidOptions`, and degenerate or past windows fail with
`InvalidWindow`, with no side effects. -/
theorem C5_createPoll_spec :
    ∀ (s : ContractState) (sender now : Nat) (title : String)
      (options : List String) (st en : Nat),
      (2 ≤ options.length → options.length ≤ 4 → st < en → now < en →
        createPoll s sender now title options st en =
          .ok (s.polls.length,
            { s with
              polls := s.polls ++ [newPoll sender title options st en]
              events := s.events ++ [.PollCreated s.polls.length title st en] }) ∧
        (newPoll sender title options st en).tallies =
          List.replicate options.length (FHE.asEuint32 0)) ∧
      (options.length < 2 ∨ 4 < options.length →
        createPoll s sender now title options st en = .error .InvalidOptions) ∧
      (2 ≤ options.length → options.length ≤ 4 → (en ≤ st ∨ en ≤ now) →
        createPoll s sender now title options st en = .error .InvalidWindow) := by
  intro s sender now title options st en
  refine ⟨?_, ?_, ?_⟩
  · intro h2 h4 hw hn
    constructor
    · unfold createPoll
      rw [if_neg (by omega), if_neg (by omega)]
    · simp [newPoll, List.map_const']
  · intro h
    unfold createPoll
    rw [if_pos h]
  · intro h2 h4 hw
    unfold createPoll
    rw [if_neg (by omega), if_pos hw]

/-- C5 witness: a concrete valid creation succeeds and returns id 0. -/
theorem C5_witness :
    createPoll initState 0 0 "T" ["A", "B"] 1 10 =
      .ok (initState.polls.length,
        { initState with
          polls := initState.polls ++ [newPoll 0 "T" ["A", "B"] 1 10]
          events := initState.events ++
            [.PollCreated initState.polls.length "T" 1 10] }) ∧
    (newPoll 0 "T" ["A", "B"] 1 10).tallies =
      List.replicate 2 (FHE.asEuint32 0) :=
  (C5_createPoll_spec initState 0 0 "T" ["A", "B"] 1 10).1
    (by decide) (by decide) (by decide) (by decide)

/-- C6: finalizePoll fails with `PollNotFinished` strictly before `endTime`
and with `PollAlreadyFinalized` on an already-finalized poll (so a second
call always fails); otherwise — for any caller, at any time ≥ `endTime` — it
sets `finalized` and marks every tally handle publicly decryptable without
changing the hidden values; no operation ever resets `finalized`. -/
theorem C6_finalizePoll_spec :
    ∀ (s : ContractState) (now pollId : Nat),
      (∀ poll : Poll, s.polls[pollId]? = some poll →
        (now < poll.endTime →
          finalizePoll s now pollId = .error .PollNotFinished) ∧
        (poll.endTime ≤ now → poll.finalized = true →
          finalizePoll s now pollId = .error .PollAlreadyFinalized) ∧
        (poll.endTime ≤ now → poll.finalized = false →
          finalizePoll s now pollId =
            .ok { s with
              polls := s.polls.set pollId (finalizedPoll poll)
              events := s.events ++ [.PollFinalized pollId] } ∧
          (finalizedPoll poll).finalized = true ∧
          (finalizedPoll poll).tallies.map Euint32.val =
            poll.tallies.map Euint32.val ∧
          ∀ tEnc ∈ (finalizedPoll poll).tallies, tEnc.pubDec = true)) ∧
      (∀ (s' : ContractState) (now' : Nat),
        finalizePoll s now pollId = .ok s' →
        ∃ e, finalizePoll s' now' pollId = .error e) ∧
      (∀ (check : SigCheck) (now' : Nat) (op : Op) (i : Nat) (p : Poll),
        s.polls[i]? = some p → p.finalized = true →
        ∃ p', (applyOp check now' op s).polls[i]? = some p' ∧
          p'.finalized = true) := by
  intro s now pollId
  refine ⟨?_, ?_, ?_⟩
  · intro poll hp
    refine ⟨?_, ?_, ?_⟩
    · intro h
      simp only [finalizePoll, hp]
      rw [if_pos h]
    · intro h hf
      simp only [finalizePoll, hp]
      rw [if_neg (by omega), if_pos hf]
    · intro h hf
      refine ⟨?_, rfl, ?_, ?_⟩
      · simp only [finalizePoll, hp]
        rw [if_neg (by omega), if_neg (by simp [hf])]
      · simp [finalizedPoll, FHE.makePubliclyDecryptable]
      · intro tEnc ht
        simp only [finalizedPoll, List.mem_map] at ht
        obtain ⟨a, -, rfl⟩ := ht
        rfl
  · intro s' now' hok
    obtain ⟨poll, hp, hen, hf, hs⟩ := finalizePoll_eq_ok.mp hok
    have hi : pollId < s.polls.length := getElem?_lt_of_eq_some hp
    have hset : s'.polls[pollId]? = some (finalizedPoll poll) := by
      rw [hs]
      exact List.getElem?_set_self hi
    simp only [finalizePoll, hset]
    split_ifs with h1 h2
    · exact ⟨.PollNotFinished, rfl⟩
    · exact ⟨.PollAlreadyFinalized, rfl⟩
    · exact absurd (by simp [finalizedPoll]) h2
  · intro check now' op i p hp hf
    obtain ⟨p', hp', hmono, -⟩ := applyOp_flags_mono check now' op s hp
    exact ⟨p', hp', hmono hf⟩

/-- C6 witness: finalizing the scenario poll before `endTime` fails with
`PollNotFinished`. -/
theorem C6_witness :
    finalizePoll scenS3 100 0 = .error .PollNotFinished :=
  (((C6_finalizePoll_spec scenS3 100 0).1 scenPoll3 rfl).1) (by decide)

/-- C7: publishResults fails with `PollNotFinished` on an unfinalized poll,
with `ResultsAlreadyPublished` when results are already published (so a
second publish always fails), and with `MismatchedResults` when the results
array's length disagrees with the option count, independent of content — all
decided before (and regardless of) proof verification, for every verifier. -/
theorem C7_publish_error_order :
    ∀ (check : SigCheck) (s : ContractState) (pollId : Nat)
      (ct pf : List Nat) (poll : Poll), s.polls[pollId]? = some poll →
      (poll.finalized = false →
        publishResults check s pollId ct pf = .error .PollNotFinished) ∧
      (poll.finalized = true → poll.resultsPublished = true →
        publishResults check s pollId ct pf = .error .ResultsAlreadyPublished) ∧
      (poll.finalized = true → poll.resultsPublished = false →
        ct.length ≠ poll.options.length →
        publishResults check s pollId ct pf = .error .MismatchedResults) ∧
      (∀ s' : ContractState, publishResults check s pollId ct pf = .ok s' →
        ∀ (check' : SigCheck) (ct' pf' : List Nat),
          publishResults check' s' pollId ct' pf' =
            .error .ResultsAlreadyPublished) := by
  intro check s pollId ct pf poll hp
  refine ⟨?_, ?_, ?_, ?_⟩
  · intro hf
    simp only [publishResults, hp]
    rw [if_pos hf]
  · intro hf hr
    simp only [publishResults, hp]
    rw [if_neg (by simp [hf]), if_pos hr]
  · intro hf hr hl
    simp only [publishResults, hp]
    rw [if_neg (by simp [hf]), if_neg (by simp [hr]), if_pos hl]
  · intro s' hok check' ct' pf'
    obtain ⟨p, hpp, hf, hr, hl, hc, hs⟩ := publishResults_eq_ok.mp hok
    have hi : pollId < s.polls.length := getElem?_lt_of_eq_some hpp
    have hset : s'.polls[pollId]? = some (publishedPoll p ct pf) := by
      rw [hs]
      exact List.getElem?_set_self hi
    simp only [publishResults, hset]
    rw [if_neg (by simp [publishedPoll, hf]),
      if_pos (by simp [publishedPoll])]

/-- C7 witness: publishing on the unfinalized scenario poll fails with
`PollNotFinished`, for the honest verifier. -/
theorem C7_witness :
    publishResults trueDecrypt scenS3 0 [0, 1, 1] [7] =
      .error .PollNotFinished :=
  ((C7_publish_error_order trueDecrypt scenS3 0 [0, 1, 1] [7] scenPoll3
    rfl).1) (by decide)

/-- C1: a successful castVote whose encrypted choice decrypts to `c < n`
rewrites every option's counter through the oblivious select, adding exactly
1 (mod 2^32) to the hidden value of `tallies[c]` and leaving every other
tally unchanged; consequently the §8 scenario (3 options, votes for options
1 and 2, finalize, publish the true counts) publishes `[0, 1, 1]`. -/
theorem C1_oblivious_tally_increment :
    (∀ (s : ContractState) (sender now pollId c : Nat) (poll : Poll),
      s.polls[pollId]? = some poll →
      poll.tallies.length = poll.options.length →
      poll.options.length ≤ U32MOD →
      poll.startTime ≤ now → now < poll.endTime →
      poll.finalized = false → (pollId, sender) ∉ s.votes →
      c < poll.options.length →
      ∃ s' poll', castVote s sender now pollId c = .ok s' ∧
        s'.polls[pollId]? = some poll' ∧
        poll'.tallies.length = poll.options.length ∧
        (poll'.tallies.getD c ⟨0, false⟩).val =
          ((poll.tallies.getD c ⟨0, false⟩).val + 1) % U32MOD ∧
        (∀ i : Nat, i < poll.options.length → i ≠ c →
          poll'.tallies.getD i ⟨0, false⟩ = poll.tallies.getD i ⟨0, false⟩)) ∧
    getPublishedResults scenS5 0 = .ok ([0, 1, 1], [7]) := by
  constructor
  · intro s sender now pollId c poll hp hlen hM h1 h2 hf hv hc
    have hi : pollId < s.polls.length := getElem?_lt_of_eq_some hp
    refine ⟨_, votedPoll poll c,
      castVote_eq_ok.mpr ⟨poll, hp, h1, h2, hf, hv, rfl⟩,
      List.getElem?_set_self hi, ?_, ?_, ?_⟩
    · simp [votedPoll, castVoteLoop_length, hlen]
    · have hcl : c < poll.tallies.length := by omega
      have hgot := castVoteLoop_getElem?_of_lt (FHE.fromExternal c) hc hcl
      simp only [votedPoll]
      rw [List.getD_eq_getElem?_getD, hgot]
      have h1M : (1 : Nat) % U32MOD = 1 := by decide
      simp [FHE.encselect, FHE.enceq, FHE.encadd, FHE.asEuint32,
        FHE.fromExternal, h1M]
    · intro i hi' hne
      have hil : i < poll.tallies.length := by omega
      have hgot := castVoteLoop_getElem?_of_lt (FHE.fromExternal c) hi' hil
      simp only [votedPoll]
      rw [List.getD_eq_getElem?_getD, hgot]
      have hcm : c % U32MOD = c := Nat.mod_eq_of_lt (by omega)
      have him : i % U32MOD = i := Nat.mod_eq_of_lt (by omega)
      have heq : FHE.enceq (FHE.fromExternal c) (FHE.asEuint32 i) = false := by
        simp only [FHE.enceq, FHE.fromExternal, FHE.asEuint32, hcm, him]
        simp [Ne.symm hne]
      rw [heq]
      simp [FHE.encselect, List.getD_eq_getElem?_getD]
  · rfl

/-- C1 witness: in the scenario poll, voter 1's vote for option 1 bumps
`tallies[1]` by one and leaves the other two counters untouched. -/
theorem C1_witness :
    ∃ s' poll', castVote scenS1 1 3 0 1 = .ok s' ∧
      s'.polls[0]? = some poll' ∧
      poll'.tallies.length = scenPoll1.options.length ∧
      (poll'.tallies.getD 1 ⟨0, false⟩).val =
        ((scenPoll1.tallies.getD 1 ⟨0, false⟩).val + 1) % U32MOD ∧
      (∀ i : Nat, i < scenPoll1.options.length → i ≠ 1 →
        poll'.tallies.getD i ⟨0, false⟩ = scenPoll1.tallies.getD i ⟨0, false⟩) :=
  C1_oblivious_tally_increment.1 scenS1 1 3 0 1 scenPoll1 rfl rfl
    (by decide) (by decide) (by decide) rfl (by decide) (by decide)

/-- A verifier that rejects everything: the forged-proof adversary. -/
def falseCheck : SigCheck := fun _ _ _ => false

/-- C2: publishResults is fail-closed and atomic with respect to the
decryption verifier: when the verifier rejects, the whole call fails with
some error and the applied operation leaves storage unchanged; only on a
successful call are `publicResults`, `publicDecryptionProof` and
`resultsPublished` written (with the verifier having accepted) and the
results-published event emitted. -/
theorem C2_publish_fail_closed :
    ∀ (check : SigCheck) (s : ContractState) (now pollId : Nat)
      (ct pf : List Nat),
      (∀ poll : Poll, s.polls[pollId]? = some poll →
        check poll.tallies ct pf = false →
        (∃ e, publishResults check s pollId ct pf = .error e) ∧
        applyOp check now (.publish pollId ct pf) s = s) ∧
      (∀ s' : ContractState, publishResults check s pollId ct pf = .ok s' →
        ∃ poll : Poll, s.polls[pollId]? = some poll ∧
          check poll.tallies ct pf = true ∧
          s'.polls = s.polls.set pollId (publishedPoll poll ct pf) ∧
          (publishedPoll poll ct pf).resultsPublished = true ∧
          (publishedPoll poll ct pf).publicResults = ct ∧
          (publishedPoll poll ct pf).publicDecryptionProof = pf ∧
          s'.events = s.events ++ [.ResultsPublished pollId ct]) := by
  intro check s now pollId ct pf
  constructor
  · intro poll hp hcheck
    have herr : ∃ e, publishResults check s pollId ct pf = .error e := by
      by_cases hA : poll.finalized = false
      · exact ⟨_, by simp only [publishResults, hp]; rw [if_pos hA]⟩
      · by_cases hB : poll.resultsPublished = true
        · exact ⟨_, by simp only [publishResults, hp]; rw [if_neg hA, if_pos hB]⟩
        · by_cases hC : ct.length ≠ poll.options.length
          · exact ⟨_, by
              simp only [publishResults, hp]
              rw [if_neg hA, if_neg hB, if_pos hC]⟩
          · exact ⟨_, by
              simp only [publishResults, hp]
              rw [if_neg hA, if_neg hB, if_neg hC, if_pos hcheck]⟩
    refine ⟨herr, ?_⟩
    obtain ⟨e, he⟩ := herr
    simp [applyOp, he]
  · intro s' hok
    obtain ⟨poll, hp, hf, hr, hl, hcheck, hs⟩ := publishResults_eq_ok.mp hok
    exact ⟨poll, hp, hcheck, by rw [hs], rfl, rfl, rfl, by rw [hs]⟩

/-- C2 witness: a verifier that rejects the (genuine) submission makes the
publish call fail and leaves the finalized scenario state unchanged. -/
theorem C2_witness :
    (∃ e, publishResults falseCheck scenS4 0 [0, 1, 1] [7] = .error e) ∧
    applyOp falseCheck 303 (.publish 0 [0, 1, 1] [7]) scenS4 = scenS4 :=
  (C2_publish_fail_closed falseCheck scenS4 303 0 [0, 1, 1] [7]).1
    scenPoll4 rfl rfl

/-- C3: a castVote whose encrypted choice decrypts to an index at or past
the option count still succeeds, records the caller's VoteReceipt, and
leaves every tally (hidden value and flag) unchanged: out-of-range choices
are a silent no-op on the tallies, never an explicit rejection. -/
theorem C3_out_of_range_noop :
    ∀ (s : ContractState) (sender now pollId c : Nat) (poll : Poll),
      s.polls[pollId]? = some poll →
      poll.options.length ≤ U32MOD →
      poll.startTime ≤ now → now < poll.endTime →
      poll.finalized = false → (pollId, sender) ∉ s.votes →
      poll.options.length ≤ c → c < U32MOD →
      ∃ s', castVote s sender now pollId c = .ok s' ∧
        hasUserVoted s' pollId sender = .ok true ∧
        ∃ poll', s'.polls[pollId]? = some poll' ∧
          poll'.tallies = poll.tallies := by
  intro s sender now pollId c poll hp hM h1 h2 hf hv hge hlt
  have hi : pollId < s.polls.length := getElem?_lt_of_eq_some hp
  have hnm : castVoteLoop (FHE.fromExternal c) poll.options.length
      poll.tallies = poll.tallies := by
    apply castVoteLoop_of_no_match
    intro i hi'
    have hcm : c % U32MOD = c := Nat.mod_eq_of_lt hlt
    have him : i % U32MOD = i := Nat.mod_eq_of_lt (by omega)
    simp only [FHE.enceq, FHE.fromExternal, FHE.asEuint32, hcm, him]
    simp only [beq_eq_false_iff_ne, ne_eq]
    omega
  refine ⟨_, castVote_eq_ok.mpr ⟨poll, hp, h1, h2, hf, hv, rfl⟩, ?_,
    votedPoll poll c, List.getElem?_set_self hi, ?_⟩
  · simp only [hasUserVoted]
    rw [List.getElem?_set_self hi]
    simp
  · simp [votedPoll, hnm]

/-- C3 witness: in the 3-option scenario poll, choice 7 is accepted, marks
voter 1 as having voted, and leaves the tallies exactly as they were. -/
theorem C3_witness :
    ∃ s', castVote scenS1 1 3 0 7 = .ok s' ∧
      hasUserVoted s' 0 1 = .ok true ∧
      ∃ poll', s'.polls[0]? = some poll' ∧
        poll'.tallies = scenPoll1.tallies :=
  C3_out_of_range_noop scenS1 1 3 0 7 scenPoll1 rfl (by decide) (by decide)
    (by decide) rfl (by decide) (by decide) (by decide)

/-- C8: in every reachable state, each poll's `finalized` and
`resultsPublished` flags only ever transition from false to true under any
applied call, `resultsPublished` implies `finalized`, and the converse does
not hold — the finalized scenario state is reachable with its results still
unpublished. -/
theorem C8_flag_monotonicity :
    (∀ (check : SigCheck) (now : Nat) (op : Op) (s : ContractState)
      (i : Nat) (p : Poll), s.polls[i]? = some p →
      ∃ p', (applyOp check now op s).polls[i]? = some p' ∧
        (p.finalized = true → p'.finalized = true) ∧
        (p.resultsPublished = true → p'.resultsPublished = true)) ∧
    (∀ (check : SigCheck) (t : Nat) (s : ContractState), Reachable check t s →
      ∀ (i : Nat) (p : Poll), s.polls[i]? = some p →
        p.resultsPublished = true → p.finalized = true) ∧
    (Reachable trueDecrypt 303 scenS4 ∧ scenS4.polls[0]? = some scenPoll4 ∧
      scenPoll4.finalized = true ∧ scenPoll4.resultsPublished = false) := by
  refine ⟨?_, ?_, reachable_scenS4, rfl, rfl, rfl⟩
  · intro check now op s i p hp
    exact applyOp_flags_mono check now op s hp
  · intro check t s hr i p hp hrp
    exact (reachable_pollInv hr i p hp).1 hrp

/-- C8 witness: the published scenario poll is finalized, as forced by its
published results. -/
theorem C8_witness : scenPoll5.finalized = true :=
  C8_flag_monotonicity.2.1 trueDecrypt 303 scenS5 reachable_scenS5 0
    scenPoll5 rfl rfl

/-- C9: with non-decreasing call timestamps, every finalized poll in a
reachable state has its `endTime` in the past, so a castVote on a finalized
poll always fails with `PollNotActive` — the `PollAlreadyFinalized` branch
of castVote is unreachable. -/
theorem C9_finalized_branch_unreachable :
    ∀ (check : SigCheck) (t : Nat) (s : ContractState), Reachable check t s →
      (∀ (i : Nat) (p : Poll), s.polls[i]? = some p → p.finalized = true →
        p.endTime ≤ t) ∧
      (∀ (t' sender i c : Nat) (p : Poll), t ≤ t' →
        s.polls[i]? = some p → p.finalized = true →
        castVote s sender t' i c = .error .PollNotActive) := by
  intro check t s hr
  have hinv := reachable_pollInv hr
  constructor
  · intro i p hp hf
    exact (hinv i p hp).2.2.1 hf
  · intro t' sender i c p htt hp hf
    have hen : p.endTime ≤ t' := le_trans ((hinv i p hp).2.2.1 hf) htt
    simp only [castVote, hp]
    rw [if_pos (Or.inr hen)]

/-- C9 witness: voting on the finalized scenario poll at a later timestamp
fails with `PollNotActive`, not `PollAlreadyFinalized`. -/
theorem C9_witness : castVote scenS4 5 400 0 1 = .error .PollNotActive :=
  (C9_finalized_branch_unreachable trueDecrypt 303 scenS4
    reachable_scenS4).2 400 5 0 1 scenPoll4 (by decide) rfl rfl

/-- C10: for every existing poll of a reachable state, getPublishedResults
never fails — before publication it returns the empty results array and
empty proof bytes — and only a `pollId` at or past the poll count makes it
fail, with `InvalidPoll`. -/
theorem C10_getPublishedResults_total :
    ∀ (check : SigCheck) (t : Nat) (s : ContractState), Reachable check t s →
      ∀ pollId : Nat,
        (∀ poll : Poll, s.polls[pollId]? = some poll →
          (∃ r, getPublishedResults s pollId = .ok r) ∧
          (poll.resultsPublished = false →
            getPublishedResults s pollId = .ok ([], []))) ∧
        (s.polls.length ≤ pollId →
          getPublishedResults s pollId = .error .InvalidPoll) := by
  intro check t s hr pollId
  constructor
  · intro poll hp
    constructor
    · exact ⟨(poll.publicResults, poll.publicDecryptionProof),
        by simp only [getPublishedResults, hp]⟩
    · intro hrp
      obtain ⟨-, hB, -⟩ := reachable_pollInv hr pollId poll hp
      obtain ⟨hpr, hpf⟩ := hB hrp
      simp only [getPublishedResults, hp, hpr, hpf]
  · intro h
    simp only [getPublishedResults, List.getElem?_eq_none h]

/-- C10 witness: reading the finalized-but-unpublished scenario poll returns
empty results and empty proof bytes. -/
theorem C10_witness : getPublishedResults scenS4 0 = .ok ([], []) :=
  (((C10_getPublishedResults_total trueDecrypt 303 scenS4
    reachable_scenS4 0).1 scenPoll4 rfl).2) rfl

end MetaVote
